/-
Verification of the rate-limited, observable streaming transport of
porjo/youtubeuploader (package internal/limiter, current variant: the one
whose `NewLimitTransport(rt, lr, filesize, ratelimit)` is called from
cmd/youtubeuploader/main.go).

Shallow embedding conventions:
* `time.Time` is modelled as `Int`, seconds since an epoch, in local time
  with a fixed UTC offset (DST transitions are not modelled; no claim here
  depends on them).  The Go zero `time.Time` is modelled as `0`
  (`IsZero t ↔ t = 0`); anchored window times are built from a positive
  "midnight of today" base, so they are never `0`.
* `t.AddDate(0,0,1)` becomes `t + oneDay` with `oneDay = 86400`.
* Go float64 arithmetic is modelled exactly where the claims need it: the
  only operations performed by the source on floats are divisions whose
  interesting cases are division by zero; `GoFloat` carries exact
  rationals plus IEEE-754 `+Inf`/`-Inf`/`NaN`, and the Go float→int
  conversion of a non-finite value is modelled as the implementation
  defined result `none`.
* `io.Reader` results are a byte count (`Nat`) and an optional error;
  `io.EOF` is the `GoError.eof` value, an ordinary error value.
-/
import Mathlib

namespace Youtubeuploader

/-- Go `time.Time`, seconds since epoch; `0` is the zero value. -/
abbrev GoTime := Int

/-- One calendar day in seconds (`AddDate(0,0,1)`; DST not modelled). -/
def oneDay : Int := 86400

/-- Go error values that appear on the data path of the limiter:
`io.EOF`, a context-cancellation error from `WaitN`, and arbitrary
other underlying-read errors (tagged by a code). -/
inductive GoError
  | eof
  | canceled
  | other (code : Nat)
deriving DecidableEq, Repr

/-- `limitRange` / `LimitRange`: a daily window anchored to concrete
instants.  `endT` models the source field `end` (a Lean keyword). -/
structure LimitRange where
  start : GoTime
  endT : GoTime
deriving DecidableEq, Repr

/-- A parsed wall-clock time of day, the result of
`time.ParseInLocation("15:04", _, time.Local)`. -/
structure ClockTime where
  hour : Nat
  minute : Nat
deriving DecidableEq, Repr

/-- `time.Date(now.Year(), now.Month(), now.Day(), c.hour, c.minute, 0, 0,
time.Local)`: anchor a clock time to today's midnight instant. -/
def anchorClock (todayMidnight : GoTime) (c : ClockTime) : GoTime :=
  todayMidnight + 3600 * (c.hour : Int) + 60 * (c.minute : Int)

/-- Split a character list on every occurrence of a separator character
(the behaviour of `strings.Split` / `String.splitOn` for the one-character
separators `"-"` and `":"` used by the source), written structurally so
it evaluates in the kernel. -/
def splitOnChar (sep : Char) : List Char → List (List Char)
  | [] => [[]]
  | c :: rest =>
    if c = sep then
      [] :: splitOnChar sep rest
    else
      match splitOnChar sep rest with
      | [] => [[c]]
      | g :: gs => (c :: g) :: gs

/-- Decimal value of a digit string. -/
def digitsToNat (cs : List Char) : Nat :=
  cs.foldl (fun acc c => acc * 10 + (c.toNat - 48)) 0

/-- Parse one `"HH:MM"` token the way Go's `time.ParseInLocation` with
layout `"15:04"` does: a 1–2 digit hour in `[0,23]`, a colon, an exactly
2 digit minute in `[0,59]`. -/
def parseClock (cs : List Char) : Option ClockTime :=
  match splitOnChar ':' cs with
  | [hcs, mcs] =>
    if 1 ≤ hcs.length && hcs.length ≤ 2 && hcs.all Char.isDigit
        && mcs.length == 2 && mcs.all Char.isDigit then
      if digitsToNat hcs < 24 && digitsToNat mcs < 60 then
        some ⟨digitsToNat hcs, digitsToNat mcs⟩
      else none
    else none
  | _ => none

/-- `ParseLimitBetween(between, "15:04")` (identical in every variant of
the source): split on `"-"` into exactly two parts, parse each as a clock
time, anchor both to today, and add one day to `end` when
`lr.end.Before(lr.start)` — the comparison is strict.  `todayMidnight`
stands for the date part of the `time.Now()` call made inside the
function. -/
def ParseLimitBetween (todayMidnight : GoTime) (between : String) :
    Option LimitRange :=
  match splitOnChar '-' between.data with
  | [p0, p1] =>
    match parseClock p0, parseClock p1 with
    | some c0, some c1 =>
      -- handle range spanning midnight
      if anchorClock todayMidnight c1 < anchorClock todayMidnight c0 then
        some ⟨anchorClock todayMidnight c0,
              anchorClock todayMidnight c1 + oneDay⟩
      else
        some ⟨anchorClock todayMidnight c0, anchorClock todayMidnight c1⟩
    | _, _ => none
  | _ => none

/-- The staleness roll performed inside `Read` before the containment
comparison: `if time.Since(lc.limitRange.start) >= time.Hour*24`, advance
both ends by one day (`AddDate(0,0,1)`), exactly once per call. -/
def rollWindow (lr : LimitRange) (now : GoTime) : LimitRange :=
  if now - lr.start ≥ oneDay then
    ⟨lr.start + oneDay, lr.endT + oneDay⟩
  else
    lr

/-- The containment comparison inside `Read`:
`lc.limitRange.start.Before(now) && lc.limitRange.end.After(now)`. -/
def containsCheck (lr : LimitRange) (now : GoTime) : Bool :=
  decide (lr.start < now) && decide (now < lr.endT)

/-- A Go `float64` value as it occurs on the limiter's data path: an exact
rational for the finite values (the divisions the source performs are
modelled exactly; rounding never reaches zero or infinity and no claim
depends on it), the IEEE-754 infinities and NaN, and `unknownVal` for a value
derived from an implementation-defined integer (Go's float→int conversion
of an out-of-range value). -/
inductive GoFloat
  | fin (q : ℚ)
  | pinf
  | ninf
  | nan
  | unknownVal
deriving DecidableEq, Repr

/-- IEEE-754 `float64` division as used by the source (signed zero is not
distinguished; the source never divides by a negative zero). -/
def fdiv : GoFloat → GoFloat → GoFloat
  | .unknownVal, _ => .unknownVal
  | _, .unknownVal => .unknownVal
  | .fin a, .fin b =>
    if b = 0 then
      if 0 < a then .pinf else if a < 0 then .ninf else .nan
    else .fin (a / b)
  | .fin _, .pinf => .fin 0
  | .fin _, .ninf => .fin 0
  | .pinf, .fin b => if 0 ≤ b then .pinf else .ninf
  | .ninf, .fin b => if 0 ≤ b then .ninf else .pinf
  | _, _ => .nan

/-- Truncation toward zero, the rounding of Go's float→int conversion. -/
def ratTrunc (q : ℚ) : Int := if 0 ≤ q then ⌊q⌋ else -⌊-q⌋

/-- Go conversion `int(x)` / `int64(x)` of a `float64`: truncation for
finite values, implementation-defined (`none`) for `±Inf`/`NaN`/unknown.
(The finite values reaching this conversion in the source are small;
finite out-of-range conversion is not modelled.) -/
def floatToInt : GoFloat → Option Int
  | .fin q => some (ratTrunc q)
  | _ => none

/-- Go conversion `float64(n)` of a machine integer whose value may be
implementation-defined. -/
def floatOfGoInt : Option Int → GoFloat
  | some n => .fin (n : ℚ)
  | none => .unknownVal

/-- `time.Duration(x) * time.Second` for a `float64` `x`: convert to an
integer number (implementation-defined for non-finite `x`), then scale to
nanoseconds. -/
def goDurationOfFloat (f : GoFloat) : Option Int :=
  (floatToInt f).map (fun n => n * 1000000000)

/-- The source's `Status.Progress` string, abstracted by its inputs:
`empty` is the Go zero string, `na` is the literal `"n/a"`, and
`pct bytes total` stands for
`fmt.Sprintf("%.1f%%", float64(bytes)/float64(total)*100)`. -/
inductive ProgressVal
  | empty
  | na
  | pct (bytes total : Int)
deriving DecidableEq, Repr

/-- `Status` of the current limiter variant.  `AvgRate` and `TimeRem` are
machine integers whose value may be implementation-defined (`none`) after
a float→int conversion of a non-finite value; `TimeRem` is in
nanoseconds. -/
structure Status where
  AvgRate : Option Int
  Bytes : Int
  TotalBytes : Int
  Progress : ProgressVal
  Start : GoTime
  TimeRem : Option Int
deriving DecidableEq, Repr

/-- The Go zero value of `Status`. -/
def Status.zero : Status := ⟨some 0, 0, 0, .empty, 0, some 0⟩

/-- The `*rate.Limiter` as far as its construction parameters are
concerned: `rate.NewLimiter(rate.Limit(limit), burst)`.  Its waiting
behaviour is external (golang.org/x/time/rate); see `TokenBucket` below
for the spec-modelled semantics. -/
structure RateLimiter where
  limit : Int
  burst : Nat
deriving DecidableEq, Repr

/-- `limitChecker`: the rate-limited reader.  `readCloser` is the
identity of the wrapped stream (`none` = Go `nil`), `ctx` the identity of
the context passed to `WaitN`. -/
structure LimitChecker where
  readCloser : Option Nat
  limitRange : LimitRange
  limiter : Option RateLimiter
  status : Status
  rateLimit : Int
  burstLimit : Nat
  ctx : Nat
deriving DecidableEq, Repr

/-- The Go zero value of `limitChecker` (the transport's embedded
reader before initialisation). -/
def LimitChecker.zero : LimitChecker :=
  ⟨none, ⟨0, 0⟩, none, Status.zero, 0, 0, 0⟩

/-- Observable actions of one `Read` call, in program order:
limiter construction, `lc.limiter.WaitN(lc.ctx, tokens)`, and the
underlying `lc.ReadCloser.Read` with its requested slice length and the
byte count it returned. -/
inductive ReadEvent
  | mkLimiter (rate : Int) (burst : Nat)
  | waitN (ctx : Nat) (tokens : Nat)
  | uread (requested : Nat) (got : Nat)
deriving DecidableEq, Repr

/-- Result of one `Read` call: the `(n, err)` pair returned to the
caller, the post-state, and the event trace. -/
structure ReadOutcome where
  n : Nat
  err : Option GoError
  state : LimitChecker
  events : List ReadEvent
deriving DecidableEq, Repr

/-- `if lc.status.Start.IsZero() { lc.status.Start = time.Now() }`. -/
def seedStart (lc : LimitChecker) (now : GoTime) : LimitChecker :=
  if lc.status.Start = 0 then
    { lc with status := { lc.status with Start := now } }
  else lc

/-- Lazy limiter construction on the first read with a positive rate
limit: `lc.burstLimit = len(p);
lc.limiter = rate.NewLimiter(rate.Limit(lc.rateLimit*kbps2bpsMultiplier),
lc.burstLimit)` with `kbps2bpsMultiplier = 125`. -/
def ensureLimiter (lc : LimitChecker) (pLen : Nat) :
    LimitChecker × List ReadEvent :=
  match lc.limiter with
  | none =>
    ({ lc with burstLimit := pLen,
               limiter := some ⟨lc.rateLimit * 125, pLen⟩ },
     [ReadEvent.mkLimiter (lc.rateLimit * 125) pLen])
  | some _ => (lc, [])

/-- The window decision inside `Read` (reached only when
`lc.rateLimit > 0`): a zero-value window means always limit; otherwise
roll the window when stale, then compare. -/
def decideLimit (lc : LimitChecker) (now : GoTime) : LimitChecker × Bool :=
  if lc.limitRange.start = 0 ∨ lc.limitRange.endT = 0 then
    (lc, true)
  else
    let lr := rollWindow lc.limitRange now
    ({ lc with limitRange := lr }, containsCheck lr now)

/-- The status recomputation after an error-free underlying read of `r`
bytes (`lc.status.Bytes += int64(read)` onwards).  Note the source
computes `TimeRem` with the `AvgRate` of the previous call and only then
updates `AvgRate`; `nowEnd` is the instant of the final
`time.Since(lc.status.Start)` call. -/
def updateStatus (st : Status) (r : Nat) (nowEnd : GoTime) : Status :=
  let bytes0 := st.Bytes + (r : Int)
  let st1 :=
    if 0 < st.TotalBytes then
      let bytes := if st.TotalBytes < bytes0 then st.TotalBytes else bytes0
      { st with Bytes := bytes
              , Progress := .pct bytes st.TotalBytes
              , TimeRem := goDurationOfFloat
                  (fdiv (.fin ((st.TotalBytes - bytes : Int) : ℚ))
                        (floatOfGoInt st.AvgRate)) }
    else
      { st with Bytes := bytes0, Progress := .na }
  { st1 with AvgRate :=
      floatToInt (fdiv (.fin ((st1.Bytes : Int) : ℚ))
        (.fin ((nowEnd - st1.Start : Int) : ℚ))) }

/-- The tail of `Read` from the underlying read onwards:
`read, err := lc.ReadCloser.Read(p)`; on error return immediately
without touching the status, otherwise recompute the status.  `u` maps a
requested slice length to the `(n, err)` the underlying reader produces
for it. -/
def finishRead (lc : LimitChecker) (pLen : Nat) (nowEnd : GoTime)
    (u : Nat → Nat × Option GoError) (evs : List ReadEvent) : ReadOutcome :=
  let r := (u pLen).1
  let evs := evs ++ [ReadEvent.uread pLen r]
  match (u pLen).2 with
  | some e => ⟨r, some e, lc, evs⟩
  | none =>
    ⟨r, none, { lc with status := updateStatus lc.status r nowEnd }, evs⟩

/-- `limitChecker.Read` of the current source variant (the gate-before
one): seed `Start`, lazily build the limiter, evaluate the window, and —
when limiting — clamp the buffer to the burst limit and charge
`tokens = len(p)` via `WaitN` *before* the underlying read.  `now` stands
for the clock reads feeding the window logic, `nowEnd` for the final
`time.Since(lc.status.Start)`, and `waitRes` for what `WaitN` returned
when it was called. -/
def lcRead (lc0 : LimitChecker) (pLen : Nat) (now nowEnd : GoTime)
    (waitRes : Option GoError) (u : Nat → Nat × Option GoError) :
    ReadOutcome :=
  let lc1 := seedStart lc0 now
  if 0 < lc1.rateLimit then
    let p1 := ensureLimiter lc1 pLen
    let p2 := decideLimit p1.1 now
    if p2.2 then
      let pLen1 := min pLen p2.1.burstLimit
      match waitRes with
      | some e => ⟨0, some e, p2.1, p1.2 ++ [ReadEvent.waitN p2.1.ctx pLen1]⟩
      | none =>
        finishRead p2.1 pLen1 nowEnd u
          (p1.2 ++ [ReadEvent.waitN p2.1.ctx pLen1])
    else
      finishRead p2.1 pLen nowEnd u p1.2
  else
    finishRead lc1 pLen nowEnd u []

/-- One `Read` call's external inputs, for running a sequence of calls. -/
structure ReadCall where
  pLen : Nat
  now : GoTime
  nowEnd : GoTime
  waitRes : Option GoError
  u : Nat → Nat × Option GoError

/-- Run a sequence of `Read` calls, keeping only the evolving state. -/
def runReads (lc : LimitChecker) (cs : List ReadCall) : LimitChecker :=
  cs.foldl (fun s c => (lcRead s c.pLen c.now c.nowEnd c.waitRes c.u).state) lc

/-- Total tokens charged to the limiter over a trace. -/
def chargedTokens : List ReadEvent → Nat
  | [] => 0
  | ReadEvent.waitN _ t :: evs => t + chargedTokens evs
  | _ :: evs => chargedTokens evs

/-- `LimitTransport` of the current variant.  The wrapped downstream
round-tripper is an external collaborator and is not part of the state
the claims concern. -/
structure LimitTransport where
  limitRange : LimitRange
  reader : LimitChecker
  readerInit : Bool
  filesize : Int
  rateLimit : Int
deriving DecidableEq, Repr

/-- `NewLimitTransport(rt, lr, filesize, ratelimit)` (the non-nil
round-tripper case). -/
def NewLimitTransport (lr : LimitRange) (filesize : Int) (ratelimit : Int) :
    LimitTransport :=
  ⟨lr, LimitChecker.zero, false, filesize, ratelimit⟩

/-- The parts of an `*http.Request` that `RoundTrip` inspects: the
`Content-Type` header, the `X-Upload-Content-Type` header, the body
stream identity (`none` = Go `nil`), and the request context identity. -/
structure Request where
  contentType : String
  xUploadContentType : String
  body : Option Nat
  ctx : Nat
deriving DecidableEq, Repr

/-- Test that the first argument starts with the second (the behaviour of
Go's strings.HasPrefix / `String.startsWith`), written structurally on
character lists so it evaluates in the kernel. -/
def startsWithList : List Char → List Char → Bool
  | _, [] => true
  | [], _ :: _ => false
  | c :: cs, p :: ps => c = p && startsWithList cs ps

/-- The payload-request detection heuristic at the top of `RoundTrip`. -/
def isPayloadRequest (r : Request) : Bool :=
  startsWithList r.contentType.data "multipart/related".data
    || startsWithList r.contentType.data "video".data
    || startsWithList r.contentType.data "application/octet-stream".data
    || decide (r.xUploadContentType = "application/octet-stream")

/-- Observable actions of one `RoundTrip` call: the once-only reader
initialisation (which seeds `status.TotalBytes` from the configured file
size) and the close of the previously wrapped stream. -/
inductive RTEvent
  | seedTotal (n : Int)
  | closeStream (id : Nat)
deriving DecidableEq, Repr

/-- Result of one `RoundTrip` call on the transport state: the new state,
the forwarded request, whether its body was replaced by the transport's
reader, and the event trace. -/
structure RTOutcome where
  state : LimitTransport
  request : Request
  bodyWrapped : Bool
  events : List RTEvent
deriving DecidableEq, Repr

/-- `LimitTransport.RoundTrip` of the current variant, up to the forward
to the wrapped transport (whose response is returned unchanged): on a
payload-carrying request, initialise the embedded reader exactly once
(context, window, rate limit, `status.TotalBytes = t.filesize`), close
the previously wrapped stream if any, point the reader at the new
request's body, and replace the body with the reader. -/
def roundTrip (t : LimitTransport) (r : Request) : RTOutcome :=
  if isPayloadRequest r then
    let p1 :=
      if !t.readerInit then
        ({ t with
            reader := { t.reader with
              ctx := r.ctx,
              limitRange := t.limitRange,
              rateLimit := t.rateLimit,
              status := { t.reader.status with TotalBytes := t.filesize } },
            readerInit := true },
         [RTEvent.seedTotal t.filesize])
      else (t, ([] : List RTEvent))
    let evClose :=
      match p1.1.reader.readCloser with
      | some id => [RTEvent.closeStream id]
      | none => []
    let t2 := { p1.1 with reader := { p1.1.reader with readCloser := r.body } }
    ⟨t2, { r with body := none }, true, p1.2 ++ evClose⟩
  else
    ⟨t, r, false, []⟩

/-- Run a sequence of `RoundTrip` calls, collecting all events. -/
def runRoundTrips (t : LimitTransport) (rs : List Request) :
    LimitTransport × List RTEvent :=
  match rs with
  | [] => (t, [])
  | r :: rs =>
    let o := roundTrip t r
    let rest := runRoundTrips o.state rs
    (rest.1, o.events ++ rest.2)

/-- Number of reader-initialisation (total-size seeding) events in a
`RoundTrip` trace. -/
def seedCount : List RTEvent → Nat
  | [] => 0
  | RTEvent.seedTotal _ :: evs => 1 + seedCount evs
  | _ :: evs => seedCount evs

/-- Modelled from the spec: the token bucket of the external rate-limiting
primitive (`golang.org/x/time/rate`, not part of this repository).  Per
§4.2 and the glossary: tokens accumulate at `rate` per second up to
`burst`; the bucket starts full; `WaitN(ctx, n)` blocks until `n` tokens
are available, then consumes them.  `BucketState` carries the virtual
time (seconds) and the current token count; `WaitN` waits exactly as long
as needed (underlying I/O is instantaneous in this model). -/
structure TokenBucket where
  rate : ℚ
  burst : ℚ

/-- Virtual time and token count of the modelled bucket. -/
structure BucketState where
  time : ℚ
  tokens : ℚ

/-- Modelled from the spec: one `WaitN(ctx, n)` on the token bucket —
wait the minimal time for `n` tokens to be available, consume them. -/
def WaitN (b : TokenBucket) (s : BucketState) (n : ℚ) : BucketState :=
  if n ≤ s.tokens then
    ⟨s.time, s.tokens - n⟩
  else
    ⟨s.time + (n - s.tokens) / b.rate, 0⟩

/-- Run a sequence of `WaitN` charges on the bucket. -/
def runWaits (b : TokenBucket) (s : BucketState) (cs : List ℚ) : BucketState :=
  cs.foldl (WaitN b) s

/-! Helper lemmas. -/

@[simp] lemma seedStart_readCloser (lc : LimitChecker) (now : GoTime) :
    (seedStart lc now).readCloser = lc.readCloser := by
  unfold seedStart; split <;> rfl

@[simp] lemma seedStart_limitRange (lc : LimitChecker) (now : GoTime) :
    (seedStart lc now).limitRange = lc.limitRange := by
  unfold seedStart; split <;> rfl

@[simp] lemma seedStart_limiter (lc : LimitChecker) (now : GoTime) :
    (seedStart lc now).limiter = lc.limiter := by
  unfold seedStart; split <;> rfl

@[simp] lemma seedStart_rateLimit (lc : LimitChecker) (now : GoTime) :
    (seedStart lc now).rateLimit = lc.rateLimit := by
  unfold seedStart; split <;> rfl

@[simp] lemma seedStart_burstLimit (lc : LimitChecker) (now : GoTime) :
    (seedStart lc now).burstLimit = lc.burstLimit := by
  unfold seedStart; split <;> rfl

@[simp] lemma seedStart_ctx (lc : LimitChecker) (now : GoTime) :
    (seedStart lc now).ctx = lc.ctx := by
  unfold seedStart; split <;> rfl

@[simp] lemma seedStart_Bytes (lc : LimitChecker) (now : GoTime) :
    (seedStart lc now).status.Bytes = lc.status.Bytes := by
  unfold seedStart; split <;> rfl

@[simp] lemma seedStart_TotalBytes (lc : LimitChecker) (now : GoTime) :
    (seedStart lc now).status.TotalBytes = lc.status.TotalBytes := by
  unfold seedStart; split <;> rfl

lemma ensureLimiter_some {lc : LimitChecker} {l : RateLimiter} (p : Nat)
    (h : lc.limiter = some l) : ensureLimiter lc p = (lc, []) := by
  unfold ensureLimiter; rw [h]

lemma ensureLimiter_none {lc : LimitChecker} (p : Nat)
    (h : lc.limiter = none) :
    ensureLimiter lc p =
      ({ lc with burstLimit := p, limiter := some ⟨lc.rateLimit * 125, p⟩ },
       [ReadEvent.mkLimiter (lc.rateLimit * 125) p]) := by
  unfold ensureLimiter; rw [h]

lemma decideLimit_zeroWindow {lc : LimitChecker} (now : GoTime)
    (h : lc.limitRange.start = 0 ∨ lc.limitRange.endT = 0) :
    decideLimit lc now = (lc, true) := by
  unfold decideLimit; rw [if_pos h]

lemma decideLimit_window {lc : LimitChecker} (now : GoTime)
    (h : ¬(lc.limitRange.start = 0 ∨ lc.limitRange.endT = 0)) :
    decideLimit lc now =
      ({ lc with limitRange := rollWindow lc.limitRange now },
       containsCheck (rollWindow lc.limitRange now) now) := by
  unfold decideLimit; rw [if_neg h]

lemma finishRead_err {u : Nat → Nat × Option GoError} {pLen : Nat}
    {e : GoError} (lc : LimitChecker) (nowEnd : GoTime)
    (evs : List ReadEvent) (h : (u pLen).2 = some e) :
    finishRead lc pLen nowEnd u evs =
      ⟨(u pLen).1, some e, lc, evs ++ [ReadEvent.uread pLen (u pLen).1]⟩ := by
  unfold finishRead; rw [h]

lemma finishRead_ok {u : Nat → Nat × Option GoError} {pLen : Nat}
    (lc : LimitChecker) (nowEnd : GoTime) (evs : List ReadEvent)
    (h : (u pLen).2 = none) :
    finishRead lc pLen nowEnd u evs =
      ⟨(u pLen).1, none,
       { lc with status := updateStatus lc.status (u pLen).1 nowEnd },
       evs ++ [ReadEvent.uread pLen (u pLen).1]⟩ := by
  unfold finishRead; rw [h]

lemma finishRead_events (lc : LimitChecker) (pLen : Nat) (nowEnd : GoTime)
    (u : Nat → Nat × Option GoError) (evs : List ReadEvent) :
    (finishRead lc pLen nowEnd u evs).events =
      evs ++ [ReadEvent.uread pLen (u pLen).1] := by
  unfold finishRead
  rcases h : (u pLen).2 with _ | e <;> simp

/-- Path lemma: throttled call (positive rate limit, limiter already
built, zero-value window) with a successful `WaitN`. -/
lemma lcRead_throttled_ok {lc : LimitChecker} {l : RateLimiter}
    (pLen : Nat) (now nowEnd : GoTime) (u : Nat → Nat × Option GoError)
    (hrl : 0 < lc.rateLimit) (hl : lc.limiter = some l)
    (hz : lc.limitRange.start = 0) :
    lcRead lc pLen now nowEnd none u =
      finishRead (seedStart lc now) (min pLen lc.burstLimit) nowEnd u
        [ReadEvent.waitN lc.ctx (min pLen lc.burstLimit)] := by
  have hl' : (seedStart lc now).limiter = some l := by simpa using hl
  have hz' : (seedStart lc now).limitRange.start = 0 ∨
      (seedStart lc now).limitRange.endT = 0 := Or.inl (by simpa using hz)
  have hrl' : 0 < (seedStart lc now).rateLimit := by simpa using hrl
  simp only [lcRead, ensureLimiter_some pLen hl', decideLimit_zeroWindow now hz',
    if_pos hrl', seedStart_ctx, seedStart_burstLimit, if_true,
    List.nil_append]

/-- Path lemma: throttled call whose `WaitN` returns an error. -/
lemma lcRead_throttled_waitErr {lc : LimitChecker} {l : RateLimiter}
    (pLen : Nat) (now nowEnd : GoTime) (u : Nat → Nat × Option GoError)
    (e : GoError)
    (hrl : 0 < lc.rateLimit) (hl : lc.limiter = some l)
    (hz : lc.limitRange.start = 0) :
    lcRead lc pLen now nowEnd (some e) u =
      ⟨0, some e, seedStart lc now,
       [ReadEvent.waitN lc.ctx (min pLen lc.burstLimit)]⟩ := by
  have hl' : (seedStart lc now).limiter = some l := by simpa using hl
  have hz' : (seedStart lc now).limitRange.start = 0 ∨
      (seedStart lc now).limitRange.endT = 0 := Or.inl (by simpa using hz)
  have hrl' : 0 < (seedStart lc now).rateLimit := by simpa using hrl
  simp only [lcRead, ensureLimiter_some pLen hl', decideLimit_zeroWindow now hz',
    if_pos hrl', seedStart_ctx, seedStart_burstLimit, if_true,
    List.nil_append]

/-- Path lemma: no rate limit configured — plain unthrottled read. -/
lemma lcRead_noLimit {lc : LimitChecker} (pLen : Nat) (now nowEnd : GoTime)
    (w : Option GoError) (u : Nat → Nat × Option GoError)
    (hrl : lc.rateLimit ≤ 0) :
    lcRead lc pLen now nowEnd w u =
      finishRead (seedStart lc now) pLen nowEnd u [] := by
  unfold lcRead
  rw [if_neg (by simpa using not_lt.mpr hrl)]

@[simp] lemma ensureLimiter_status (lc : LimitChecker) (p : Nat) :
    (ensureLimiter lc p).1.status = lc.status := by
  unfold ensureLimiter; cases lc.limiter <;> rfl

@[simp] lemma ensureLimiter_readCloser (lc : LimitChecker) (p : Nat) :
    (ensureLimiter lc p).1.readCloser = lc.readCloser := by
  unfold ensureLimiter; cases lc.limiter <;> rfl

@[simp] lemma ensureLimiter_ctx (lc : LimitChecker) (p : Nat) :
    (ensureLimiter lc p).1.ctx = lc.ctx := by
  unfold ensureLimiter; cases lc.limiter <;> rfl

@[simp] lemma ensureLimiter_rateLimit (lc : LimitChecker) (p : Nat) :
    (ensureLimiter lc p).1.rateLimit = lc.rateLimit := by
  unfold ensureLimiter; cases lc.limiter <;> rfl

@[simp] lemma ensureLimiter_limitRange (lc : LimitChecker) (p : Nat) :
    (ensureLimiter lc p).1.limitRange = lc.limitRange := by
  unfold ensureLimiter; cases lc.limiter <;> rfl

lemma ensureLimiter_cases (lc : LimitChecker) (p : Nat) :
    ((ensureLimiter lc p).1.limiter = lc.limiter ∧
      (ensureLimiter lc p).1.burstLimit = lc.burstLimit ∧
      (ensureLimiter lc p).2 = []) ∨
    (lc.limiter = none ∧
      (ensureLimiter lc p).1.limiter = some ⟨lc.rateLimit * 125, p⟩ ∧
      (ensureLimiter lc p).1.burstLimit = p ∧
      (ensureLimiter lc p).2 = [ReadEvent.mkLimiter (lc.rateLimit * 125) p]) := by
  rcases h : lc.limiter with _ | l
  · right; simp [ensureLimiter, h]
  · left; simp [ensureLimiter, h]

@[simp] lemma decideLimit_status (lc : LimitChecker) (now : GoTime) :
    (decideLimit lc now).1.status = lc.status := by
  unfold decideLimit; split <;> rfl

@[simp] lemma decideLimit_readCloser (lc : LimitChecker) (now : GoTime) :
    (decideLimit lc now).1.readCloser = lc.readCloser := by
  unfold decideLimit; split <;> rfl

@[simp] lemma decideLimit_ctx (lc : LimitChecker) (now : GoTime) :
    (decideLimit lc now).1.ctx = lc.ctx := by
  unfold decideLimit; split <;> rfl

@[simp] lemma decideLimit_rateLimit (lc : LimitChecker) (now : GoTime) :
    (decideLimit lc now).1.rateLimit = lc.rateLimit := by
  unfold decideLimit; split <;> rfl

@[simp] lemma decideLimit_burstLimit (lc : LimitChecker) (now : GoTime) :
    (decideLimit lc now).1.burstLimit = lc.burstLimit := by
  unfold decideLimit; split <;> rfl

@[simp] lemma decideLimit_limiter (lc : LimitChecker) (now : GoTime) :
    (decideLimit lc now).1.limiter = lc.limiter := by
  unfold decideLimit; split <;> rfl

/-- Reduction of `lcRead` in the positive-rate-limit case to its
components. -/
lemma lcRead_eq_pos (lc : LimitChecker) (pLen : Nat) (now nowEnd : GoTime)
    (w : Option GoError) (u : Nat → Nat × Option GoError)
    (hrl : 0 < lc.rateLimit) :
    lcRead lc pLen now nowEnd w u =
      (if (decideLimit (ensureLimiter (seedStart lc now) pLen).1 now).2 then
        match w with
        | some e =>
          ⟨0, some e,
           (decideLimit (ensureLimiter (seedStart lc now) pLen).1 now).1,
           (ensureLimiter (seedStart lc now) pLen).2 ++
             [ReadEvent.waitN
               (decideLimit (ensureLimiter (seedStart lc now) pLen).1 now).1.ctx
               (min pLen
                 (decideLimit (ensureLimiter (seedStart lc now) pLen).1
                   now).1.burstLimit)]⟩
        | none =>
          finishRead
            (decideLimit (ensureLimiter (seedStart lc now) pLen).1 now).1
            (min pLen
              (decideLimit (ensureLimiter (seedStart lc now) pLen).1
                now).1.burstLimit)
            nowEnd u
            ((ensureLimiter (seedStart lc now) pLen).2 ++
              [ReadEvent.waitN
                (decideLimit (ensureLimiter (seedStart lc now) pLen).1
                  now).1.ctx
                (min pLen
                  (decideLimit (ensureLimiter (seedStart lc now) pLen).1
                    now).1.burstLimit)])
      else
        finishRead
          (decideLimit (ensureLimiter (seedStart lc now) pLen).1 now).1
          pLen nowEnd u (ensureLimiter (seedStart lc now) pLen).2) := by
  have hrl' : 0 < (seedStart lc now).rateLimit := by simpa using hrl
  simp only [lcRead, if_pos hrl']

/-- Shape of every possible `Read` call: after `Start` seeding and
possible limiter creation the call either performs a plain unthrottled
read, fails in `WaitN`, or charges `min (len p) burstLimit` tokens via
`WaitN` and then reads from the clamped buffer.  `lcMid` is the state
right after limiter creation and window roll; its status is that of the
seeded input state. -/
lemma lcRead_shape (lc : LimitChecker) (pLen : Nat) (now nowEnd : GoTime)
    (w : Option GoError) (u : Nat → Nat × Option GoError) :
    ∃ lcMid : LimitChecker,
      lcMid.status = (seedStart lc now).status ∧
      lcMid.readCloser = lc.readCloser ∧
      lcMid.ctx = lc.ctx ∧
      lcMid.rateLimit = lc.rateLimit ∧
      ((lcMid.limiter = lc.limiter ∧ lcMid.burstLimit = lc.burstLimit) ∨
        (lc.limiter = none ∧
         lcMid.limiter = some ⟨lc.rateLimit * 125, pLen⟩ ∧
         lcMid.burstLimit = pLen)) ∧
      ((∃ evs0,
          (evs0 = [] ∨
            evs0 = [ReadEvent.mkLimiter (lc.rateLimit * 125) pLen]) ∧
          lcRead lc pLen now nowEnd w u =
            finishRead lcMid pLen nowEnd u evs0) ∨
       (∃ e evs0, w = some e ∧
          (evs0 = [] ∨
            evs0 = [ReadEvent.mkLimiter (lc.rateLimit * 125) pLen]) ∧
          lcRead lc pLen now nowEnd w u =
            ⟨0, some e, lcMid,
             evs0 ++ [ReadEvent.waitN lc.ctx (min pLen lcMid.burstLimit)]⟩) ∨
       (∃ evs0, w = none ∧
          (evs0 = [] ∨
            evs0 = [ReadEvent.mkLimiter (lc.rateLimit * 125) pLen]) ∧
          lcRead lc pLen now nowEnd w u =
            finishRead lcMid (min pLen lcMid.burstLimit) nowEnd u
              (evs0 ++
                [ReadEvent.waitN lc.ctx (min pLen lcMid.burstLimit)]))) := by
  by_cases hrl : 0 < lc.rateLimit
  · have key := lcRead_eq_pos lc pLen now nowEnd w u hrl
    rcases ensureLimiter_cases (seedStart lc now) pLen with
      ⟨he1, he2, he3⟩ | ⟨he0, he1, he2, he3⟩
    all_goals
      refine ⟨(decideLimit (ensureLimiter (seedStart lc now) pLen).1 now).1,
        by simp, by simp, by simp, by simp, ?_, ?_⟩
    · exact Or.inl (by simp [he1, he2])
    · rcases hb : (decideLimit (ensureLimiter (seedStart lc now) pLen).1
          now).2 with _ | _
      · rw [hb] at key
        simp only [if_false, Bool.false_eq_true] at key
        exact Or.inl ⟨_, Or.inl he3, by rw [key, he3]⟩
      · rw [hb] at key
        simp only [if_true] at key
        rcases w with _ | e
        · refine Or.inr (Or.inr ⟨_, rfl, Or.inl he3, ?_⟩)
          rw [key, he3]
          simp
        · refine Or.inr (Or.inl ⟨e, _, rfl, Or.inl he3, ?_⟩)
          rw [key, he3]
          simp
    · refine Or.inr ⟨by simpa using he0, by simp [he1], by simp [he2]⟩
    · rcases hb : (decideLimit (ensureLimiter (seedStart lc now) pLen).1
          now).2 with _ | _
      · rw [hb] at key
        simp only [if_false, Bool.false_eq_true] at key
        refine Or.inl ⟨_, Or.inr ?_, key⟩
        rw [he3]
        simp
      · rw [hb] at key
        simp only [if_true] at key
        rcases w with _ | e
        · refine Or.inr (Or.inr
            ⟨[ReadEvent.mkLimiter (lc.rateLimit * 125) pLen], rfl,
             Or.inr rfl, ?_⟩)
          rw [key, he3]
          simp
        · refine Or.inr (Or.inl
            ⟨e, [ReadEvent.mkLimiter (lc.rateLimit * 125) pLen], rfl,
             Or.inr rfl, ?_⟩)
          rw [key, he3]
          simp
  · have key := lcRead_noLimit pLen now nowEnd w u (not_lt.mp hrl)
    exact ⟨seedStart lc now, rfl, by simp, by simp, by simp,
      Or.inl ⟨by simp, by simp⟩, Or.inl ⟨[], Or.inl rfl, key⟩⟩

lemma parseClock_bounds {cs : List Char} {c : ClockTime}
    (h : parseClock cs = some c) : c.hour < 24 ∧ c.minute < 60 := by
  unfold parseClock at h
  split at h
  next hcs mcs =>
    split at h
    · split at h
      next h2 =>
        cases h
        simpa using h2
      · exact absurd h (by simp)
    · exact absurd h (by simp)
  next => exact absurd h (by simp)

lemma anchorClock_bounds (today : GoTime) {c : ClockTime}
    (h24 : c.hour < 24) (h60 : c.minute < 60) :
    today ≤ anchorClock today c ∧ anchorClock today c < today + oneDay := by
  simp only [anchorClock, oneDay]
  have h0 : (0:Int) ≤ 3600 * (c.hour : Int) := by positivity
  have h0m : (0:Int) ≤ 60 * (c.minute : Int) := by positivity
  have h1 : (c.hour : Int) ≤ 23 := by exact_mod_cast Nat.lt_succ_iff.mp h24
  have h2 : (c.minute : Int) ≤ 59 := by exact_mod_cast Nat.lt_succ_iff.mp h60
  constructor <;> linarith

@[simp] lemma updateStatus_TotalBytes (st : Status) (r : Nat) (t : GoTime) :
    (updateStatus st r t).TotalBytes = st.TotalBytes := by
  simp only [updateStatus]
  split <;> rfl

@[simp] lemma updateStatus_Start (st : Status) (r : Nat) (t : GoTime) :
    (updateStatus st r t).Start = st.Start := by
  simp only [updateStatus]
  split <;> rfl

lemma updateStatus_Bytes (st : Status) (r : Nat) (t : GoTime) :
    (updateStatus st r t).Bytes =
      if 0 < st.TotalBytes then
        (if st.TotalBytes < st.Bytes + (r : Int) then st.TotalBytes
         else st.Bytes + (r : Int))
      else st.Bytes + (r : Int) := by
  simp only [updateStatus]
  split <;> rfl

/-! Claim C1. -/

/-- C1 counterexample: a throttled `Read` offered a 10-byte buffer whose
underlying stream yields only 3 bytes (a short read at stream end).  The
trace shows the limiter is charged 10 tokens *before* the underlying
read, and the charge (10) differs from the bytes actually read (3) —
refuting the gate-after claim that the read happens first and the charge
equals the bytes actually read. -/
theorem C1_counterexample :
    chargedTokens (lcRead ⟨some 1, ⟨0, 0⟩, some ⟨125, 10⟩,
        ⟨some 0, 0, 0, .empty, 5, some 0⟩, 1, 10, 0⟩
        10 100 101 none (fun _ => (3, none))).events = 10 ∧
    (lcRead ⟨some 1, ⟨0, 0⟩, some ⟨125, 10⟩,
        ⟨some 0, 0, 0, .empty, 5, some 0⟩, 1, 10, 0⟩
        10 100 101 none (fun _ => (3, none))).n = 3 ∧
    (lcRead ⟨some 1, ⟨0, 0⟩, some ⟨125, 10⟩,
        ⟨some 0, 0, 0, .empty, 5, some 0⟩, 1, 10, 0⟩
        10 100 101 none (fun _ => (3, none))).events =
      [ReadEvent.waitN 0 10, ReadEvent.uread 10 3] ∧
    (10 : Nat) ≠ 3 := by decide

/-- C1 (amended): in the current reader, when throttling is active the
limiter is charged *before* the underlying read, and the charge equals
the buffer length clamped to the burst limit (`min (len p) burstLimit`),
not the number of bytes the read then returns: the trace of a throttled
call with a successful wait is exactly `WaitN` followed by the underlying
read, with the waited token count independent of the bytes obtained, so a
short read at stream end is charged for the full clamped request. -/
theorem C1_gate_before_charges_clamped_request
    (lc : LimitChecker) (pLen : Nat) (now nowEnd : GoTime)
    (u : Nat → Nat × Option GoError) (l : RateLimiter)
    (hrl : 0 < lc.rateLimit) (hl : lc.limiter = some l)
    (hz : lc.limitRange.start = 0) :
    (lcRead lc pLen now nowEnd none u).events =
      [ReadEvent.waitN lc.ctx (min pLen lc.burstLimit),
       ReadEvent.uread (min pLen lc.burstLimit)
         (u (min pLen lc.burstLimit)).1] := by
  rw [lcRead_throttled_ok pLen now nowEnd u hrl hl hz, finishRead_events]
  rfl

/-- C1 witness: the amended theorem at the counterexample's concrete
input. -/
theorem C1_amended_witness :
    0 < (1 : Int) ∧
      (lcRead ⟨some 1, ⟨0, 0⟩, some ⟨125, 10⟩,
          ⟨some 0, 0, 0, .empty, 5, some 0⟩, 1, 10, 0⟩
          10 100 101 none (fun _ => (3, none))).events =
        [ReadEvent.waitN 0 10, ReadEvent.uread 10 3] :=
  ⟨by decide,
   C1_gate_before_charges_clamped_request
     ⟨some 1, ⟨0, 0⟩, some ⟨125, 10⟩, ⟨some 0, 0, 0, .empty, 5, some 0⟩,
      1, 10, 0⟩
     10 100 101 (fun _ => (3, none)) ⟨125, 10⟩ (by decide) rfl rfl⟩

/-! Claim C3. -/

/-- C3 counterexample: the window string `"10:00-10:00"` parses into two
valid, equal clock times; the source adds a day only when `end` is
*strictly* before `start` (`lr.end.Before(lr.start)`), so here no day is
added and the returned window has `end = start` — not strictly after —
refuting the claim that a day is added whenever `end ≤ start`. -/
theorem C3_counterexample :
    ParseLimitBetween 0 "10:00-10:00" = some ⟨36000, 36000⟩ ∧
      ¬ (∀ lr : LimitRange, ParseLimitBetween 0 "10:00-10:00" = some lr →
          lr.start < lr.endT) :=
  ⟨by decide, fun hall => absurd (hall ⟨36000, 36000⟩ (by decide)) (by decide)⟩

/-- C3 (amended): `ParseLimitBetween` adds one day to `end` exactly when
the anchored end is strictly before the anchored start; consequently the
returned window always satisfies `start ≤ end`, with equality (not
strictly after) when the two clock times are identical. -/
theorem C3_end_never_before_start (today : GoTime) (s : String)
    (lr : LimitRange) (h : ParseLimitBetween today s = some lr) :
    lr.start ≤ lr.endT := by
  unfold ParseLimitBetween at h
  split at h
  next p0 p1 =>
    split at h
    next c0 c1 hc0 hc1 =>
      obtain ⟨hh0, hm0⟩ := parseClock_bounds hc0
      obtain ⟨hh1, hm1⟩ := parseClock_bounds hc1
      obtain ⟨hlo0, hhi0⟩ := anchorClock_bounds today hh0 hm0
      obtain ⟨hlo1, hhi1⟩ := anchorClock_bounds today hh1 hm1
      split at h
      next hlt =>
        cases h
        simp only
        linarith
      next hge =>
        cases h
        simp only
        linarith [not_lt.mp hge]
    next => exact absurd h (by simp)
  next => exact absurd h (by simp)

/-- C3 witness: the amended theorem applied to the concrete parse of
`"10:00-14:00"` anchored at midnight `0`. -/
theorem C3_amended_witness :
    ParseLimitBetween 0 "10:00-14:00" = some ⟨36000, 50400⟩ ∧
      (36000 : Int) ≤ 50400 :=
  ⟨by decide,
   C3_end_never_before_start 0 "10:00-14:00" ⟨36000, 50400⟩ (by decide)⟩

/-! Claim C4. -/

/-- C4 counterexample: for the non-zero window `[100, 200)` and the
instant `now = 100` we have `start ≤ now < end`, so the claim requires
the containment check to return true; the source's
`lr.start.Before(now) && lr.end.After(now)` is strict at `start` and
returns false. -/
theorem C4_counterexample :
    containsCheck ⟨100, 200⟩ 100 = false ∧
      (100 : Int) ≤ 100 ∧ (100 : Int) < 200 := by decide

/-- C4 (amended): the containment check used by `Read` to decide
throttling returns true iff `start < now < end` — strict (exclusive) at
both ends, not inclusive at `start`. -/
theorem C4_contains_strict_both_ends (lr : LimitRange) (now : GoTime) :
    containsCheck lr now = true ↔ lr.start < now ∧ now < lr.endT := by
  simp [containsCheck]

/-! Claim C5. -/

/-- C5 counterexample: a window parsed at day D (`10:00`–`14:00`, i.e.
`[36000, 50400)` with D's midnight at 0) evaluated by a single `Read`
at day D+2 noon (`now = 216000`).  The call advances the window by
exactly one day (to `[122400, 136800)`), which is still ≥ 24h stale, and
decides *not* to throttle (no `waitN` event) although noon lies inside
the daily `10:00`–`14:00` window — refuting both "advances by whole days
(as many as needed)" and "evaluated correctly at day D+2". -/
theorem C5_counterexample :
    (lcRead ⟨some 1, ⟨36000, 50400⟩, some ⟨125, 10⟩,
        ⟨some 0, 0, 0, .empty, 5, some 0⟩, 1, 10, 0⟩
        10 216000 216001 none (fun _ => (10, none))).events =
      [ReadEvent.uread 10 10] ∧
    (lcRead ⟨some 1, ⟨36000, 50400⟩, some ⟨125, 10⟩,
        ⟨some 0, 0, 0, .empty, 5, some 0⟩, 1, 10, 0⟩
        10 216000 216001 none (fun _ => (10, none))).state.limitRange =
      ⟨122400, 136800⟩ ∧
    oneDay ≤ 216000 - 122400 := by
  refine ⟨rfl, rfl, by decide⟩

/-- C5 (amended): when the current moment has passed the window's start
by 24 hours or more, a containment check advances `start` and `end` by
exactly *one* day (not by as many days as needed); when the window is two
or more days stale it therefore remains at least one day stale after the
single advance, and a second check is needed to complete the roll. -/
theorem C5_roll_exactly_one_day (lr : LimitRange) (now : GoTime)
    (h : oneDay ≤ now - lr.start) :
    rollWindow lr now = ⟨lr.start + oneDay, lr.endT + oneDay⟩ ∧
      (2 * oneDay ≤ now - lr.start →
        oneDay ≤ now - (rollWindow lr now).start) := by
  unfold rollWindow
  rw [if_pos h]
  exact ⟨rfl, fun h2 => by simp only; omega⟩

/-- C5 witness: the amended theorem applied to the day-D window
`[36000, 50400)` at day D+2 noon. -/
theorem C5_amended_witness :
    oneDay ≤ (216000 : Int) - 36000 ∧
      rollWindow ⟨36000, 50400⟩ 216000 = ⟨36000 + oneDay, 50400 + oneDay⟩ ∧
      (2 * oneDay ≤ (216000 : Int) - 36000 →
        oneDay ≤ 216000 - (rollWindow ⟨36000, 50400⟩ 216000).start) :=
  ⟨by decide, C5_roll_exactly_one_day ⟨36000, 50400⟩ 216000 (by decide)⟩

/-! Claim C6. -/

lemma finishRead_state_status (lc : LimitChecker) (pLen : Nat)
    (nowEnd : GoTime) (u : Nat → Nat × Option GoError)
    (evs : List ReadEvent) :
    (finishRead lc pLen nowEnd u evs).state.status = lc.status ∨
    (finishRead lc pLen nowEnd u evs).state.status =
      updateStatus lc.status (u pLen).1 nowEnd := by
  unfold finishRead
  rcases h : (u pLen).2 with _ | e
  · right; simp [h]
  · left; simp [h]

lemma status_step_bounds (st : Status) (r : Nat) (t : GoTime)
    (hinv : 0 < st.TotalBytes → st.Bytes ≤ st.TotalBytes) :
    st.Bytes ≤ (updateStatus st r t).Bytes ∧
    (0 < st.TotalBytes → (updateStatus st r t).Bytes ≤ st.TotalBytes) := by
  rw [updateStatus_Bytes]
  constructor
  · split
    next hT =>
      have := hinv hT
      split <;> omega
    next hT => omega
  · intro hT
    rw [if_pos hT]
    have := hinv hT
    split <;> omega

/-- One `Read` call keeps `TotalBytes` unchanged and, under the byte-cap
invariant, can only grow `Bytes` while keeping it within `TotalBytes`. -/
lemma lcRead_Bytes_step (lc : LimitChecker) (pLen : Nat)
    (now nowEnd : GoTime) (w : Option GoError)
    (u : Nat → Nat × Option GoError) :
    (lcRead lc pLen now nowEnd w u).state.status.TotalBytes =
      lc.status.TotalBytes ∧
    ((0 < lc.status.TotalBytes → lc.status.Bytes ≤ lc.status.TotalBytes) →
      lc.status.Bytes ≤ (lcRead lc pLen now nowEnd w u).state.status.Bytes ∧
      (0 < lc.status.TotalBytes →
        (lcRead lc pLen now nowEnd w u).state.status.Bytes ≤
          lc.status.TotalBytes)) := by
  obtain ⟨lcMid, hst, -, -, -, -, hpath⟩ :=
    lcRead_shape lc pLen now nowEnd w u
  have hB : lcMid.status.Bytes = lc.status.Bytes := by rw [hst]; simp
  have hT : lcMid.status.TotalBytes = lc.status.TotalBytes := by
    rw [hst]; simp
  have key : (lcRead lc pLen now nowEnd w u).state.status = lcMid.status ∨
      ∃ rr, (lcRead lc pLen now nowEnd w u).state.status =
        updateStatus lcMid.status rr nowEnd := by
    rcases hpath with ⟨evs0, -, heq⟩ | ⟨e, evs0, -, -, heq⟩ |
      ⟨evs0, -, -, heq⟩
    · rw [heq]
      rcases finishRead_state_status lcMid pLen nowEnd u evs0 with h | h
      · exact Or.inl h
      · exact Or.inr ⟨_, h⟩
    · rw [heq]
      exact Or.inl rfl
    · rw [heq]
      rcases finishRead_state_status lcMid (min pLen lcMid.burstLimit)
          nowEnd u _ with h | h
      · exact Or.inl h
      · exact Or.inr ⟨_, h⟩
  rcases key with h | ⟨rr, h⟩
  · rw [h, hB, hT]
    exact ⟨rfl, fun hinv => ⟨le_refl _, fun ht => hinv ht⟩⟩
  · rw [h]
    constructor
    · rw [updateStatus_TotalBytes, hT]
    · intro hinv
      have hinvMid : 0 < lcMid.status.TotalBytes →
          lcMid.status.Bytes ≤ lcMid.status.TotalBytes := by
        rw [hB, hT]; exact hinv
      obtain ⟨h1, h2⟩ := status_step_bounds lcMid.status rr nowEnd hinvMid
      rw [hB] at h1
      rw [hT] at h2
      exact ⟨h1, h2⟩

/-- C6 (confirmed): over any sequence of `Read` calls, the monitor's byte
counter is non-decreasing, the expected total is never modified by reads,
and — when the total was set to a positive value with the counter within
it (as at upload start, where the counter is 0) — the counter never
exceeds the total: any excess is clamped to `TotalBytes`. -/
theorem C6_bytes_monotone_capped (lc : LimitChecker) (cs : List ReadCall)
    (hinv : 0 < lc.status.TotalBytes →
      lc.status.Bytes ≤ lc.status.TotalBytes) :
    lc.status.Bytes ≤ (runReads lc cs).status.Bytes ∧
    (runReads lc cs).status.TotalBytes = lc.status.TotalBytes ∧
    (0 < lc.status.TotalBytes →
      (runReads lc cs).status.Bytes ≤ lc.status.TotalBytes) := by
  induction cs generalizing lc with
  | nil => exact ⟨le_refl _, rfl, fun ht => hinv ht⟩
  | cons c cs ih =>
    obtain ⟨hT, hrest⟩ := lcRead_Bytes_step lc c.pLen c.now c.nowEnd
      c.waitRes c.u
    obtain ⟨hmono, hcap⟩ := hrest hinv
    have hinv1 : 0 < (lcRead lc c.pLen c.now c.nowEnd c.waitRes
          c.u).state.status.TotalBytes →
        (lcRead lc c.pLen c.now c.nowEnd c.waitRes c.u).state.status.Bytes ≤
          (lcRead lc c.pLen c.now c.nowEnd c.waitRes
            c.u).state.status.TotalBytes := by
      rw [hT]; exact hcap
    have ih1 := ih _ hinv1
    have hrun : runReads lc (c :: cs) =
        runReads (lcRead lc c.pLen c.now c.nowEnd c.waitRes c.u).state cs :=
      rfl
    rw [hrun]
    refine ⟨le_trans hmono ih1.1, by rw [ih1.2.1, hT], fun ht => ?_⟩
    have := ih1.2.2 (by rw [hT]; exact ht)
    rw [hT] at this
    exact this

/-- C6 witness: a fresh monitor with `TotalBytes = 100` and two 60-byte
reads — the counter rises to 60, then is clamped at 100. -/
theorem C6_witness :
    ((0 : Int) < 100 → (0 : Int) ≤ 100) ∧
      (0 : Int) ≤
        (runReads ⟨some 1, ⟨0, 0⟩, none,
            ⟨some 0, 0, 100, .empty, 0, some 0⟩, 0, 0, 0⟩
          [⟨60, 50, 51, none, fun L => (L, none)⟩,
           ⟨60, 52, 53, none, fun L => (L, none)⟩]).status.Bytes ∧
      ((0 : Int) < 100 →
        (runReads ⟨some 1, ⟨0, 0⟩, none,
            ⟨some 0, 0, 100, .empty, 0, some 0⟩, 0, 0, 0⟩
          [⟨60, 50, 51, none, fun L => (L, none)⟩,
           ⟨60, 52, 53, none, fun L => (L, none)⟩]).status.Bytes ≤ 100) :=
  have h := C6_bytes_monotone_capped
    ⟨some 1, ⟨0, 0⟩, none, ⟨some 0, 0, 100, .empty, 0, some 0⟩, 0, 0, 0⟩
    [⟨60, 50, 51, none, fun L => (L, none)⟩,
     ⟨60, 52, 53, none, fun L => (L, none)⟩]
    (fun _ => by decide)
  ⟨fun _ => by decide, h.1, h.2.2⟩

/-! Claim C7. -/

/-- `RoundTrip` on a payload request when the reader is already
initialised: only the wrapped stream changes. -/
lemma roundTrip_payload_inited {t : LimitTransport} {r : Request}
    (hp : isPayloadRequest r = true) (hi : t.readerInit = true) :
    roundTrip t r =
      ⟨{ t with reader := { t.reader with readCloser := r.body } },
       { r with body := none }, true,
       (match t.reader.readCloser with
        | some id => [RTEvent.closeStream id]
        | none => [])⟩ := by
  simp only [roundTrip, hp, hi, Bool.not_true, Bool.false_eq_true,
    if_false, if_true, List.nil_append]

/-- `RoundTrip` on a payload request when the reader is not yet
initialised: the reader is seeded (context, window, rate limit,
`TotalBytes = filesize`) and pointed at the request body. -/
lemma roundTrip_payload_uninit {t : LimitTransport} {r : Request}
    (hp : isPayloadRequest r = true) (hi : t.readerInit = false) :
    roundTrip t r =
      ⟨{ t with
          reader := { t.reader with
            ctx := r.ctx,
            limitRange := t.limitRange,
            rateLimit := t.rateLimit,
            status := { t.reader.status with TotalBytes := t.filesize },
            readCloser := r.body },
          readerInit := true },
       { r with body := none }, true,
       [RTEvent.seedTotal t.filesize] ++
         (match t.reader.readCloser with
          | some id => [RTEvent.closeStream id]
          | none => [])⟩ := by
  simp only [roundTrip, hp, hi, Bool.not_false, if_true,
    List.singleton_append]

/-- `RoundTrip` on a non-payload request passes everything through. -/
lemma roundTrip_other {t : LimitTransport} {r : Request}
    (hp : isPayloadRequest r = false) :
    roundTrip t r = ⟨t, r, false, []⟩ := by
  simp only [roundTrip, hp, Bool.false_eq_true, if_false]

lemma runRoundTrips_cons (t : LimitTransport) (r : Request)
    (rs : List Request) :
    runRoundTrips t (r :: rs) =
      ((runRoundTrips (roundTrip t r).state rs).1,
       (roundTrip t r).events ++
         (runRoundTrips (roundTrip t r).state rs).2) := rfl

lemma seedCount_append (a b : List RTEvent) :
    seedCount (a ++ b) = seedCount a + seedCount b := by
  induction a with
  | nil => simp [seedCount]
  | cons e es ih =>
    cases e with
    | seedTotal n =>
      simp [seedCount, ih]
      omega
    | closeStream id => simp [seedCount, ih]

/-- After the reader is initialised, further `RoundTrip`s never seed
again and never touch the reader's status. -/
lemma runRoundTrips_inited (rs : List Request) :
    ∀ t : LimitTransport, t.readerInit = true →
      (runRoundTrips t rs).1.readerInit = true ∧
      (runRoundTrips t rs).1.reader.status = t.reader.status ∧
      seedCount (runRoundTrips t rs).2 = 0 := by
  induction rs with
  | nil => exact fun t hi => ⟨hi, rfl, rfl⟩
  | cons r rs ih =>
    intro t hi
    rcases hp : isPayloadRequest r with _ | _
    · rw [runRoundTrips_cons, roundTrip_other hp]
      obtain ⟨a, b, c⟩ := ih t hi
      exact ⟨a, b, by simpa [seedCount] using c⟩
    · rw [runRoundTrips_cons, roundTrip_payload_inited hp hi]
      obtain ⟨a, b, c⟩ := ih
        { t with reader := { t.reader with readCloser := r.body } } hi
      refine ⟨a, b, ?_⟩
      rw [seedCount_append, c]
      rcases t.reader.readCloser with _ | id <;> simp [seedCount]

/-- C7 (confirmed): when `RoundTrip` sees a payload-carrying request and
a reader already exists for the upload, it closes the reader's current
stream, re-points the reader at the new request's body, and leaves every
other reader field — the status (bytes transferred, start time, total
bytes) and the token-bucket limiter and burst limit — unchanged; and over
any request sequence starting from a fresh transport, the reader's
`TotalBytes` is seeded from the configured file size exactly once (on the
first payload request) and never re-seeded. -/
theorem C7_rewrap_preserves_monitor_seed_once :
    (∀ (t : LimitTransport) (r : Request),
      isPayloadRequest r = true → t.readerInit = true →
      (roundTrip t r).state.reader =
        { t.reader with readCloser := r.body } ∧
      (roundTrip t r).state.readerInit = true ∧
      (roundTrip t r).state.filesize = t.filesize ∧
      (roundTrip t r).state.rateLimit = t.rateLimit ∧
      (roundTrip t r).state.limitRange = t.limitRange ∧
      (roundTrip t r).bodyWrapped = true ∧
      (roundTrip t r).events =
        (match t.reader.readCloser with
         | some id => [RTEvent.closeStream id]
         | none => []) ∧
      seedCount (roundTrip t r).events = 0) ∧
    (∀ (t0 : LimitTransport) (rs : List Request), t0.readerInit = false →
      seedCount (runRoundTrips t0 rs).2 =
        (if rs.any isPayloadRequest then 1 else 0) ∧
      (rs.any isPayloadRequest = true →
        (runRoundTrips t0 rs).1.reader.status.TotalBytes = t0.filesize)) := by
  constructor
  · intro t r hp hi
    rw [roundTrip_payload_inited hp hi]
    refine ⟨rfl, hi, rfl, rfl, rfl, rfl, rfl, ?_⟩
    rcases t.reader.readCloser with _ | id <;> simp [seedCount]
  · intro t0 rs
    induction rs generalizing t0 with
    | nil => exact fun _ => ⟨rfl, by simp⟩
    | cons r rs ih =>
      intro hi
      rcases hp : isPayloadRequest r with _ | _
      · rw [runRoundTrips_cons, roundTrip_other hp]
        obtain ⟨a, b⟩ := ih t0 hi
        constructor
        · simpa [seedCount, hp] using a
        · intro hany
          simp only [List.any_cons, hp, Bool.false_or] at hany
          exact b hany
      · rw [runRoundTrips_cons, roundTrip_payload_uninit hp hi]
        obtain ⟨a, b, c⟩ := runRoundTrips_inited rs
          { t0 with
            reader := { t0.reader with
              ctx := r.ctx,
              limitRange := t0.limitRange,
              rateLimit := t0.rateLimit,
              status := { t0.reader.status with TotalBytes := t0.filesize },
              readCloser := r.body },
            readerInit := true } rfl
        constructor
        · rw [seedCount_append, c, seedCount_append]
          simp only [List.any_cons, hp, Bool.true_or, if_pos rfl]
          rcases t0.reader.readCloser with _ | id <;> simp [seedCount]
        · intro _
          rw [b]

/-- C7 witness: the theorem applied to a concrete mid-upload transport
(non-zero byte count and start time survive the re-wrap) and to a fresh
transport receiving two payload requests (one seeding only). -/
theorem C7_witness :
    ((roundTrip
        ⟨⟨100, 200⟩,
         ⟨some 3, ⟨100, 200⟩, some ⟨625, 10⟩,
          ⟨some 9, 42, 100, .empty, 7, some 0⟩, 5, 10, 1⟩,
         true, 100, 5⟩
        ⟨"video/mp4", "", some 9, 2⟩).state.reader =
      ⟨some 9, ⟨100, 200⟩, some ⟨625, 10⟩,
       ⟨some 9, 42, 100, .empty, 7, some 0⟩, 5, 10, 1⟩) ∧
    seedCount (runRoundTrips (NewLimitTransport ⟨100, 200⟩ 100 5)
      [⟨"video/mp4", "", some 9, 2⟩,
       ⟨"application/octet-stream", "", some 11, 3⟩]).2 = 1 ∧
    (runRoundTrips (NewLimitTransport ⟨100, 200⟩ 100 5)
      [⟨"video/mp4", "", some 9, 2⟩,
       ⟨"application/octet-stream", "", some 11, 3⟩]).1.reader.status.TotalBytes
      = 100 :=
  have h := C7_rewrap_preserves_monitor_seed_once
  have h1 := h.1
    ⟨⟨100, 200⟩,
     ⟨some 3, ⟨100, 200⟩, some ⟨625, 10⟩,
      ⟨some 9, 42, 100, .empty, 7, some 0⟩, 5, 10, 1⟩,
     true, 100, 5⟩
    ⟨"video/mp4", "", some 9, 2⟩ (by decide) rfl
  have h2 := h.2 (NewLimitTransport ⟨100, 200⟩ 100 5)
    [⟨"video/mp4", "", some 9, 2⟩,
     ⟨"application/octet-stream", "", some 11, 3⟩] rfl
  ⟨h1.1, by rw [h2.1, if_pos (by decide)], h2.2 (by decide)⟩

/-! Claim C8. -/

/-- C8 counterexample: the underlying read returns 3 bytes *together
with* an error (permitted by the `io.Reader` contract).  The call returns
those bytes and the error to the caller, but the status monitor's byte
counter is left at its previous value 7 — the bytes actually read by
this call are *not* recorded before the error is propagated, refuting the
claim that every call records its bytes before propagation. -/
theorem C8_counterexample :
    (lcRead ⟨some 1, ⟨0, 0⟩, none, ⟨some 0, 7, 100, .empty, 5, some 0⟩,
        0, 0, 0⟩ 10 50 60 none (fun _ => (3, some (.other 7)))).n = 3 ∧
    (lcRead ⟨some 1, ⟨0, 0⟩, none, ⟨some 0, 7, 100, .empty, 5, some 0⟩,
        0, 0, 0⟩ 10 50 60 none (fun _ => (3, some (.other 7)))).err =
      some (.other 7) ∧
    (lcRead ⟨some 1, ⟨0, 0⟩, none, ⟨some 0, 7, 100, .empty, 5, some 0⟩,
        0, 0, 0⟩ 10 50 60 none
        (fun _ => (3, some (.other 7)))).state.status.Bytes = 7 ∧
    (7 : Int) + 3 ≠ 7 := by decide

/-- C8 (amended): errors from the underlying read and from the throttle
wait propagate to the caller unchanged (end-of-stream being the ordinary
`io.EOF` error value, passed through like any other), and recorded bytes
are never rolled back on error; but bytes are recorded *only* on
error-free calls — when the underlying read returns bytes together with
an error, those bytes are returned to the caller yet the status monitor
is left untouched, and a failed `WaitN` likewise leaves the monitor's
byte count unchanged. -/
theorem C8_errors_propagate_bytes_unrecorded
    (lc : LimitChecker) (pLen : Nat) (now nowEnd : GoTime)
    (u : Nat → Nat × Option GoError) (r0 : Nat) (e : GoError)
    (hu : ∀ L, u L = (r0, some e)) :
    ((lcRead lc pLen now nowEnd none u).n = r0 ∧
     (lcRead lc pLen now nowEnd none u).err = some e ∧
     (lcRead lc pLen now nowEnd none u).state.status.Bytes =
       lc.status.Bytes) ∧
    (∀ wErr : GoError, ∀ l : RateLimiter, 0 < lc.rateLimit →
      lc.limiter = some l → lc.limitRange.start = 0 →
      (lcRead lc pLen now nowEnd (some wErr) u).n = 0 ∧
      (lcRead lc pLen now nowEnd (some wErr) u).err = some wErr ∧
      (lcRead lc pLen now nowEnd (some wErr) u).state.status.Bytes =
        lc.status.Bytes) := by
  constructor
  · obtain ⟨lcMid, hst, -, -, -, -, hpath⟩ :=
      lcRead_shape lc pLen now nowEnd none u
    rcases hpath with ⟨evs0, -, heq⟩ | ⟨e', evs0, hw, -, -⟩ |
      ⟨evs0, -, -, heq⟩
    · rw [heq, finishRead_err lcMid nowEnd evs0 (by rw [hu])]
      simp [hu, hst]
    · exact absurd hw (by simp)
    · rw [heq, finishRead_err lcMid nowEnd _ (by rw [hu])]
      simp [hu, hst]
  · intro wErr l hrl hl hz
    rw [lcRead_throttled_waitErr pLen now nowEnd u wErr hrl hl hz]
    simp

/-- C8 witness: the amended theorem at a concrete throttled reader whose
underlying stream returns 5 bytes together with `io.EOF`, and whose
`WaitN` is cancelled on a second call. -/
theorem C8_amended_witness :
    ((lcRead ⟨some 1, ⟨0, 0⟩, some ⟨125, 10⟩,
        ⟨some 0, 7, 100, .empty, 5, some 0⟩, 1, 10, 0⟩
        10 50 60 none (fun _ => (5, some .eof))).n = 5 ∧
     (lcRead ⟨some 1, ⟨0, 0⟩, some ⟨125, 10⟩,
        ⟨some 0, 7, 100, .empty, 5, some 0⟩, 1, 10, 0⟩
        10 50 60 none (fun _ => (5, some .eof))).err = some .eof ∧
     (lcRead ⟨some 1, ⟨0, 0⟩, some ⟨125, 10⟩,
        ⟨some 0, 7, 100, .empty, 5, some 0⟩, 1, 10, 0⟩
        10 50 60 none (fun _ => (5, some .eof))).state.status.Bytes = 7) ∧
    ((lcRead ⟨some 1, ⟨0, 0⟩, some ⟨125, 10⟩,
        ⟨some 0, 7, 100, .empty, 5, some 0⟩, 1, 10, 0⟩
        10 50 60 (some .canceled) (fun _ => (5, some .eof))).n = 0 ∧
     (lcRead ⟨some 1, ⟨0, 0⟩, some ⟨125, 10⟩,
        ⟨some 0, 7, 100, .empty, 5, some 0⟩, 1, 10, 0⟩
        10 50 60 (some .canceled) (fun _ => (5, some .eof))).err =
       some .canceled ∧
     (lcRead ⟨some 1, ⟨0, 0⟩, some ⟨125, 10⟩,
        ⟨some 0, 7, 100, .empty, 5, some 0⟩, 1, 10, 0⟩
        10 50 60 (some .canceled)
        (fun _ => (5, some .eof))).state.status.Bytes = 7) :=
  have h := C8_errors_propagate_bytes_unrecorded
    ⟨some 1, ⟨0, 0⟩, some ⟨125, 10⟩, ⟨some 0, 7, 100, .empty, 5, some 0⟩,
     1, 10, 0⟩ 10 50 60 (fun _ => (5, some .eof)) 5 .eof (fun _ => rfl)
  ⟨h.1, h.2 .canceled ⟨125, 10⟩ (by decide) rfl rfl⟩

/-! Claim C10. -/

@[simp] lemma finishRead_state_burstLimit (lc : LimitChecker) (pLen : Nat)
    (nowEnd : GoTime) (u : Nat → Nat × Option GoError)
    (evs : List ReadEvent) :
    (finishRead lc pLen nowEnd u evs).state.burstLimit = lc.burstLimit := by
  unfold finishRead
  rcases h : (u pLen).2 with _ | e <;> simp [h]

@[simp] lemma finishRead_state_limiter (lc : LimitChecker) (pLen : Nat)
    (nowEnd : GoTime) (u : Nat → Nat × Option GoError)
    (evs : List ReadEvent) :
    (finishRead lc pLen nowEnd u evs).state.limiter = lc.limiter := by
  unfold finishRead
  rcases h : (u pLen).2 with _ | e <;> simp [h]

lemma finishRead_n (lc : LimitChecker) (pLen : Nat) (nowEnd : GoTime)
    (u : Nat → Nat × Option GoError) (evs : List ReadEvent) :
    (finishRead lc pLen nowEnd u evs).n = (u pLen).1 := by
  unfold finishRead
  rcases h : (u pLen).2 with _ | e <;> simp [h]

/-- C10 (confirmed): whenever throttling is active, `WaitN` is asked for
at most `burstLimit` tokens — the burst capacity fixed when the limiter
was created (every `waitN` event's token count is bounded by the
post-state's burst limit, which equals the bucket's burst when a limiter
exists) — so the wait can never fail because the request exceeds the
bucket; and a throttled `Read` (one whose trace contains a `waitN`)
returns at most `burstLimit` bytes even when offered a larger buffer. -/
theorem C10_wait_within_burst_read_clamped
    (lc : LimitChecker) (pLen : Nat) (now nowEnd : GoTime)
    (w : Option GoError) (u : Nat → Nat × Option GoError)
    (hu : ∀ L, (u L).1 ≤ L)
    (hb : ∀ l, lc.limiter = some l → l.burst = lc.burstLimit) :
    (∀ c n, ReadEvent.waitN c n ∈ (lcRead lc pLen now nowEnd w u).events →
      n ≤ (lcRead lc pLen now nowEnd w u).state.burstLimit ∧
      (∀ l, (lcRead lc pLen now nowEnd w u).state.limiter = some l →
        n ≤ l.burst)) ∧
    ((∃ c n, ReadEvent.waitN c n ∈ (lcRead lc pLen now nowEnd w u).events) →
      (lcRead lc pLen now nowEnd w u).n ≤
        (lcRead lc pLen now nowEnd w u).state.burstLimit) := by
  obtain ⟨lcMid, -, -, -, -, hlim, hpath⟩ :=
    lcRead_shape lc pLen now nowEnd w u
  have hbMid : ∀ l, lcMid.limiter = some l → l.burst = lcMid.burstLimit := by
    rcases hlim with ⟨h1, h2⟩ | ⟨-, h1, h2⟩
    · intro l hl
      rw [h2]
      exact hb l (h1 ▸ hl)
    · intro l hl
      rw [h1] at hl
      cases hl
      exact h2.symm
  rcases hpath with ⟨evs0, hevs0, heq⟩ | ⟨e, evs0, -, hevs0, heq⟩ |
    ⟨evs0, -, hevs0, heq⟩
  · -- unthrottled: no waitN event at all
    rw [heq, finishRead_events]
    have hnw : ∀ c n, ReadEvent.waitN c n ∉
        evs0 ++ [ReadEvent.uread pLen (u pLen).1] := by
      intro c n hmem
      rcases List.mem_append.mp hmem with h | h
      · rcases hevs0 with rfl | rfl
        · exact absurd h (List.not_mem_nil _)
        · simp at h
      · simp at h
    exact ⟨fun c n hmem => absurd hmem (hnw c n),
      fun ⟨c, n, hmem⟩ => absurd hmem (hnw c n)⟩
  · -- wait failed
    rw [heq]
    simp only [List.mem_append, List.mem_singleton]
    refine ⟨fun c n hmem => ?_, fun _ => Nat.zero_le _⟩
    have hn : n = min pLen lcMid.burstLimit := by
      rcases hmem with h | h
      · rcases hevs0 with rfl | rfl
        · exact absurd h (List.not_mem_nil _)
        · simp at h
      · cases h
        rfl
    subst hn
    exact ⟨Nat.min_le_right _ _,
      fun l hl => by rw [hbMid l hl]; exact Nat.min_le_right _ _⟩
  · -- throttled, wait succeeded
    rw [heq, finishRead_events, finishRead_n, finishRead_state_burstLimit,
      finishRead_state_limiter]
    refine ⟨fun c n hmem => ?_,
      fun _ => le_trans (hu _) (Nat.min_le_right _ _)⟩
    have hn : n = min pLen lcMid.burstLimit := by
      rcases List.mem_append.mp hmem with h | h
      · rcases List.mem_append.mp h with h2 | h2
        · rcases hevs0 with rfl | rfl
          · exact absurd h2 (List.not_mem_nil _)
          · simp at h2
        · simp at h2
          exact h2.2
      · simp at h
    subst hn
    exact ⟨Nat.min_le_right _ _,
      fun l hl => by rw [hbMid l hl]; exact Nat.min_le_right _ _⟩

/-- C10 witness: a throttled reader with burst limit 10 offered a 25-byte
buffer whose underlying stream fills whatever it is asked for: the single
`WaitN` charges 10 tokens (within the bucket's burst capacity 10) and the
call returns 10 bytes, not 25. -/
theorem C10_witness :
    (10 ≤ (lcRead ⟨some 1, ⟨0, 0⟩, some ⟨125, 10⟩,
        ⟨some 0, 0, 0, .empty, 5, some 0⟩, 1, 10, 0⟩
        25 100 101 none (fun L => (L, none))).state.burstLimit ∧
      10 ≤ (⟨125, 10⟩ : RateLimiter).burst) ∧
    (lcRead ⟨some 1, ⟨0, 0⟩, some ⟨125, 10⟩,
        ⟨some 0, 0, 0, .empty, 5, some 0⟩, 1, 10, 0⟩
        25 100 101 none (fun L => (L, none))).n ≤
      (lcRead ⟨some 1, ⟨0, 0⟩, some ⟨125, 10⟩,
        ⟨some 0, 0, 0, .empty, 5, some 0⟩, 1, 10, 0⟩
        25 100 101 none (fun L => (L, none))).state.burstLimit :=
  have h := C10_wait_within_burst_read_clamped
    ⟨some 1, ⟨0, 0⟩, some ⟨125, 10⟩, ⟨some 0, 0, 0, .empty, 5, some 0⟩,
     1, 10, 0⟩ 25 100 101 none (fun L => (L, none))
    (fun L => le_refl L)
    (fun l hl => by injection hl with h2; rw [← h2])
  have hm := h.1 0 10 (by decide)
  ⟨⟨hm.1, hm.2 ⟨125, 10⟩ (by decide)⟩, h.2 ⟨0, 10, by decide⟩⟩

/-! Claim C2. -/

/-- Conservation law of the modelled bucket: elapsed virtual time times
the rate equals tokens consumed minus what is still missing from a full
bucket, and the token count stays within `[0, burst]`. -/
lemma runWaits_invariant (r b : ℚ) (hr : 0 < r) :
    ∀ (cs : List ℚ) (s : BucketState), (∀ n ∈ cs, 0 ≤ n ∧ n ≤ b) →
      0 ≤ s.tokens → s.tokens ≤ b →
      (runWaits ⟨r, b⟩ s cs).time * r =
        s.time * r + cs.sum - s.tokens + (runWaits ⟨r, b⟩ s cs).tokens ∧
      0 ≤ (runWaits ⟨r, b⟩ s cs).tokens ∧
      (runWaits ⟨r, b⟩ s cs).tokens ≤ b := by
  intro cs
  induction cs with
  | nil =>
    intro s _ h0 hb
    refine ⟨by simp [runWaits], h0, hb⟩
  | cons n ns ih =>
    intro s hcs h0 hb
    obtain ⟨hn0, hnb⟩ := hcs n (List.mem_cons_self n ns)
    have hcs2 : ∀ m ∈ ns, 0 ≤ m ∧ m ≤ b :=
      fun m hm => hcs m (List.mem_cons_of_mem n hm)
    have hstep : runWaits ⟨r, b⟩ s (n :: ns) =
        runWaits ⟨r, b⟩ (WaitN ⟨r, b⟩ s n) ns := rfl
    rw [hstep]
    by_cases hc : n ≤ s.tokens
    · have hW : WaitN ⟨r, b⟩ s n = ⟨s.time, s.tokens - n⟩ := by
        simp [WaitN, hc]
      rw [hW]
      obtain ⟨h1, h2, h3⟩ := ih ⟨s.time, s.tokens - n⟩ hcs2
        (by simp only; linarith) (by simp only; linarith)
      refine ⟨?_, h2, h3⟩
      rw [h1]
      simp only [List.sum_cons]
      ring
    · have hW : WaitN ⟨r, b⟩ s n = ⟨s.time + (n - s.tokens) / r, 0⟩ := by
        simp [WaitN, hc]
      rw [hW]
      obtain ⟨h1, h2, h3⟩ := ih ⟨s.time + (n - s.tokens) / r, 0⟩ hcs2
        (le_refl 0) (by linarith)
      refine ⟨?_, h2, h3⟩
      rw [h1]
      simp only [List.sum_cons]
      have hdr : (n - s.tokens) / r * r = n - s.tokens :=
        div_mul_cancel₀ _ (ne_of_gt hr)
      ring_nf
      ring_nf at hdr ⊢
      nlinarith [hdr]

/-- C2 (confirmed, against the spec-modelled bucket): the limiter the
first throttled read constructs refills at exactly `rateLimit × 125`
bytes per second (`rate.NewLimiter(rate.Limit(lc.rateLimit*125), …)`),
and on the modelled token bucket with that rate `r` and burst `b`,
transferring charges summing to `N` (each within the burst, as every
`WaitN` call of the reader is) starting from a full bucket takes virtual
time `T` with `N/r − b/r ≤ T ≤ N/r` — at least `N/r` within one burst
interval, and at most `N/r` (which is within `N/r` plus one burst
interval). -/
theorem C2_refill_rate_and_transfer_time
    (R : Int) (b : ℚ) (cs : List ℚ)
    (hR : 0 < R) (hb : 0 < b) (hcs : ∀ n ∈ cs, 0 ≤ n ∧ n ≤ b) :
    (cs.sum / ((R * 125 : Int) : ℚ) - b / ((R * 125 : Int) : ℚ) ≤
        (runWaits ⟨((R * 125 : Int) : ℚ), b⟩ ⟨0, b⟩ cs).time ∧
      (runWaits ⟨((R * 125 : Int) : ℚ), b⟩ ⟨0, b⟩ cs).time ≤
        cs.sum / ((R * 125 : Int) : ℚ)) ∧
    (∀ (lc : LimitChecker) (pLen : Nat) (now nowEnd : GoTime)
        (w : Option GoError) (u : Nat → Nat × Option GoError),
      lc.rateLimit = R → lc.limiter = none →
      (lcRead lc pLen now nowEnd w u).state.limiter =
        some ⟨R * 125, pLen⟩) := by
  constructor
  · have hr : (0 : ℚ) < ((R * 125 : Int) : ℚ) := by
      have : (0 : Int) < R * 125 := by positivity
      exact_mod_cast this
    obtain ⟨h1, h2, h3⟩ := runWaits_invariant ((R * 125 : Int) : ℚ) b hr cs
      ⟨0, b⟩ hcs (le_of_lt hb) (le_refl b)
    simp only [zero_mul, zero_add] at h1
    constructor
    · rw [div_sub_div_same, div_le_iff₀ hr]
      linarith
    · rw [le_div_iff₀ hr]
      linarith
  · intro lc pLen now nowEnd w u hRL hml
    have hrl : 0 < lc.rateLimit := by rw [hRL]; exact hR
    have key := lcRead_eq_pos lc pLen now nowEnd w u hrl
    have hens := ensureLimiter_none pLen
      (show (seedStart lc now).limiter = none by simpa using hml)
    rw [hens] at key
    rw [key]
    split <;> rcases w with _ | e <;>
      simp [hRL]

/-- C2 witness: rate 1 kbps (125 bytes/s), burst 4, two full-burst
charges of 4 bytes each (8 bytes total): the transfer takes 4/125 s of
virtual time, within the bounds 8/125 − 4/125 and 8/125; and a concrete
first throttled read builds the limiter with rate 125 and burst 10. -/
theorem C2_witness :
    (([4, 4] : List ℚ).sum / (((1 : Int) * 125 : Int) : ℚ) -
          4 / (((1 : Int) * 125 : Int) : ℚ) ≤
        (runWaits ⟨(((1 : Int) * 125 : Int) : ℚ), 4⟩ ⟨0, 4⟩ [4, 4]).time ∧
      (runWaits ⟨(((1 : Int) * 125 : Int) : ℚ), 4⟩ ⟨0, 4⟩ [4, 4]).time ≤
        ([4, 4] : List ℚ).sum / (((1 : Int) * 125 : Int) : ℚ)) ∧
    (lcRead ⟨some 1, ⟨0, 0⟩, none, ⟨some 0, 0, 0, .empty, 5, some 0⟩,
        1, 0, 0⟩ 10 100 101 none
        (fun L => (L, none))).state.limiter = some ⟨1 * 125, 10⟩ :=
  have h := C2_refill_rate_and_transfer_time 1 4 [4, 4] (by decide)
    (by norm_num) (by norm_num)
  ⟨h.1,
   h.2 ⟨some 1, ⟨0, 0⟩, none, ⟨some 0, 0, 0, .empty, 5, some 0⟩, 1, 0, 0⟩
     10 100 101 none (fun L => (L, none)) rfl rfl⟩

/-! Claim C9. -/

/-- C9 counterexample: the first read of an upload with
`TotalBytes = 100`, 10 bytes read, evaluated at an elapsed time of zero
(`Start` seeded this very call) with previous `AvgRate = 0`.  Both
divisions divide by zero: the stored average rate is the
implementation-defined integer conversion of `+Inf` (`none` in the
model), not a guarded `0`, and the stored ETA is likewise the
implementation-defined conversion of `+Inf`, not `0` or an infinite
sentinel the code controls. -/
theorem C9_counterexample :
    (lcRead ⟨some 1, ⟨0, 0⟩, none, ⟨some 0, 0, 100, .empty, 0, some 0⟩,
        0, 0, 0⟩ 10 50 50 none
        (fun _ => (10, none))).state.status.AvgRate = none ∧
    (lcRead ⟨some 1, ⟨0, 0⟩, none, ⟨some 0, 0, 100, .empty, 0, some 0⟩,
        0, 0, 0⟩ 10 50 50 none
        (fun _ => (10, none))).state.status.TimeRem = none := by decide

/-- C9 (amended): only the total-size guard exists.  When
`TotalBytes ≤ 0` the progress field reports `"n/a"` and no ETA is
computed (`TimeRem` is left unchanged); but the average-rate and ETA
divisions are unguarded: at elapsed time zero the rate computation
divides by zero and stores the implementation-defined conversion of
`+Inf` rather than leaving the rate at 0, and when the previous average
rate is 0 (with bytes still to transfer) the ETA computation divides by
zero and stores the implementation-defined conversion of `+Inf` rather
than leaving the ETA at 0. -/
theorem C9_only_na_guard_divisions_unguarded
    (st : Status) (r : Nat) (nowEnd : GoTime) :
    (st.TotalBytes ≤ 0 →
      (updateStatus st r nowEnd).Progress = ProgressVal.na ∧
      (updateStatus st r nowEnd).TimeRem = st.TimeRem) ∧
    (0 < st.Bytes + (r : Int) → nowEnd = st.Start →
      (updateStatus st r nowEnd).AvgRate = none) ∧
    (0 < st.TotalBytes → st.AvgRate = some 0 →
      st.Bytes + (r : Int) < st.TotalBytes →
      (updateStatus st r nowEnd).TimeRem = none) := by
  refine ⟨fun hT => ?_, fun hB hE => ?_, fun hT hA hB => ?_⟩
  · simp only [updateStatus]
    rw [if_neg (not_lt.mpr hT)]
    exact ⟨rfl, rfl⟩
  · simp only [updateStatus]
    split
    next hT =>
      have hb : (0 : Int) < (if st.TotalBytes < st.Bytes + (r : Int)
          then st.TotalBytes else st.Bytes + (r : Int)) := by
        split <;> omega
      simp only [fdiv, hE]
      rw [if_pos (by simp), if_pos (by exact_mod_cast hb)]
      rfl
    next hT =>
      simp only [fdiv, hE]
      rw [if_pos (by simp), if_pos (by exact_mod_cast hB)]
      rfl
  · simp only [updateStatus]
    rw [if_pos hT, if_neg (not_lt.mpr (le_of_lt hB))]
    have hpos : (0 : Int) < st.TotalBytes - (st.Bytes + (r : Int)) := by
      omega
    simp only [hA, floatOfGoInt, fdiv, Int.cast_zero, if_true]
    rw [if_pos (by exact_mod_cast hpos)]
    rfl

/-- C9 witness: the amended theorem applied to a zero-total status (n/a
branch), a zero-elapsed first read, and a zero-previous-rate status with
bytes remaining. -/
theorem C9_amended_witness :
    ((updateStatus ⟨some 0, 0, 0, .empty, 50, some 0⟩ 10 60).Progress =
        ProgressVal.na ∧
      (updateStatus ⟨some 0, 0, 0, .empty, 50, some 0⟩ 10 60).TimeRem =
        some 0) ∧
    (updateStatus ⟨some 0, 0, 0, .empty, 50, some 0⟩ 10 50).AvgRate =
      none ∧
    (updateStatus ⟨some 0, 0, 100, .empty, 40, some 0⟩ 10 50).TimeRem =
      none :=
  ⟨(C9_only_na_guard_divisions_unguarded
      ⟨some 0, 0, 0, .empty, 50, some 0⟩ 10 60).1 (by decide),
   (C9_only_na_guard_divisions_unguarded
      ⟨some 0, 0, 0, .empty, 50, some 0⟩ 10 50).2.1 (by decide) rfl,
   (C9_only_na_guard_divisions_unguarded
      ⟨some 0, 0, 100, .empty, 40, some 0⟩ 10 50).2.2 (by decide) rfl
     (by decide)⟩

end Youtubeuploader
